import Mathlib

/-!
Verification model of the cacheman-s3 S3Store cache layer
(src/index.ts together with src/types.ts): key codec, TTL handling,
get/set response handling, clear batching, scan collection and the
health check.  JavaScript strings are modelled as String / List Char,
JS numbers as Int / Nat (every number these code paths manipulate is an
integer), and a callback is modelled by the value it is invoked with.
-/

namespace CachemanS3

/-- Error taxonomy of src/types.ts (the S3StoreError subclasses).  The
wrapped originalError cause is not modelled; the statusCode carried by
S3OperationError is. -/
inductive CacheError where
  | configurationError (message : String)
  | s3OperationError (message : String) (statusCode : Option Nat)
  | serializationError (message : String)
  | ttlError (message : String)
deriving DecidableEq

/-- Processed configuration (the fields the modelled operations read).
The source field name for keyPrefix is prefix, which is a Lean keyword. -/
structure Config where
  bucket : String
  region : String
  keyPrefix : String
  defaultTtl : Int
  storageClass : Option String
  serverSideEncryption : Option String
deriving DecidableEq

/-- A TTL argument as it reaches set: omitted (undefined, or the
callback passed in the ttl position), a JS number, or a non-number.
NaN behaves exactly like nonNumber under isValidTTL. -/
inductive TTLInput where
  | omitted
  | num (n : Int)
  | nonNumber
deriving DecidableEq

/-- Type guard isValidTTL of src/types.ts: a number that is -1 or
strictly positive. -/
def isValidTTL : TTLInput → Bool
  | .num n => decide (n = -1 ∨ 0 < n)
  | _ => false

/-- Type guard isValidCacheKey of src/types.ts: a non-empty string. -/
def isValidCacheKey (key : String) : Bool := decide (key.data ≠ [])

/-- Provider error shape used by the catch handlers: name,
metadata.httpStatusCode, message. -/
structure S3ErrorInfo where
  name : Option String
  httpStatusCode : Option Nat
  message : Option String
deriving DecidableEq

/-! ## JS number parsing (parseInt with radix 10) -/

/-- Whitespace skipped by parseInt. -/
def isJsWhitespace (c : Char) : Bool :=
  c = ' ' || c = '\t' || c = '\n' || c = '\r' ||
  c.toNat = 11 || c.toNat = 12 || c.toNat = 0xA0 || c.toNat = 0xFEFF

/-- Leading decimal-digit run; none when the first character is not a
digit (parseInt returns NaN then). -/
def natPrefix (l : List Char) : Option Nat :=
  let ds := l.takeWhile Char.isDigit
  if ds = [] then none
  else some (ds.foldl (fun a c => 10 * a + (c.toNat - 48)) 0)

/-- JS parseInt(s, 10): skip whitespace, optional sign, leading digits;
none models NaN. -/
def jsParseInt (s : String) : Option Int :=
  match s.data.dropWhile isJsWhitespace with
  | '-' :: rest => (natPrefix rest).map (fun n => -(n : Int))
  | '+' :: rest => (natPrefix rest).map (fun n => (n : Int))
  | l => (natPrefix l).map (fun n => (n : Int))

/-! ## Metadata and expiry -/

/-- Access into the S3 object metadata record (string keys and values;
the records produced by set have distinct keys). -/
def lookupMeta (k : String) : List (String × String) → Option String
  | [] => none
  | p :: rest => if p.1 = k then some p.2 else lookupMeta k rest

/-- S3Store.isExpired: the cache-ttl attribute must be present, truthy
(non-empty), parse to a number, and be strictly below Date.now(). -/
def S3Store.isExpired (metadata : List (String × String)) (now : Int) : Bool :=
  match lookupMeta "cache-ttl" metadata with
  | none => false
  | some ttl =>
    if ttl = "" then false
    else
      match jsParseInt ttl with
      | none => false
      | some expirationTime => decide (expirationTime < now)

/-! ## Key codec -/

/-- Modelled from the spec: the external sanitize-filename utility
(spec section 1 treats sanitization as an externally supplied, vetted
capability).  Modelled as removal of the characters unsafe for storage
object identifiers: the filesystem-illegal punctuation and the control
ranges.  Returns true for the characters the sanitizer removes. -/
def sanitizeRemoved (c : Char) : Bool :=
  c = '/' || c = '?' || c = '<' || c = '>' || c = '\\' || c = ':' ||
  c = '*' || c = '|' || c = '"' ||
  decide (c.toNat < 32) || decide (128 ≤ c.toNat ∧ c.toNat ≤ 159)

/-- A character the sanitizer leaves untouched. -/
def sanitizerSafe (c : Char) : Bool := !(sanitizeRemoved c)

/-- A character allowed in the keys claim C2 quantifies over:
sanitizer-safe, or the literal hierarchy separator. -/
def safeOrSlash (c : Char) : Bool := sanitizerSafe c || c = '/'

/-- Modelled from the spec: the sanitizer pass itself (character
removal with the default empty replacement). -/
def sanitize (l : List Char) : List Char := l.filter (fun c => sanitizerSafe c)

/-- Characters encodeURIComponent leaves unescaped. -/
def isUnreservedURI (c : Char) : Bool :=
  c.isAlphanum || c = '-' || c = '_' || c = '.' || c = '!' || c = '~' ||
  c = '*' || c = Char.ofNat 39 || c = '(' || c = ')'

/-- Uppercase hex digit for a nibble. -/
def hexDigit (m : Nat) : Char :=
  if m < 10 then Char.ofNat (48 + m) else Char.ofNat (55 + m)

/-- Value of a hex digit character (decodeURIComponent accepts either
case); none for a non-hex character. -/
def hexVal (c : Char) : Option Nat :=
  if 48 ≤ c.toNat ∧ c.toNat ≤ 57 then some (c.toNat - 48)
  else if 65 ≤ c.toNat ∧ c.toNat ≤ 70 then some (c.toNat - 55)
  else if 97 ≤ c.toNat ∧ c.toNat ≤ 102 then some (c.toNat - 87)
  else none

/-- UTF-8 bytes of a character. -/
def utf8Bytes (c : Char) : List Nat :=
  let n := c.toNat
  if n < 128 then [n]
  else if n < 2048 then [192 + n / 64, 128 + n % 64]
  else if n < 65536 then [224 + n / 4096, 128 + n / 64 % 64, 128 + n % 64]
  else [240 + n / 262144, 128 + n / 4096 % 64, 128 + n / 64 % 64, 128 + n % 64]

/-- Percent escape of one byte, uppercase hex as encodeURIComponent
produces it. -/
def pctEscape (b : Nat) : List Char :=
  ['%', hexDigit (b / 16), hexDigit (b % 16)]

/-- Percent escapes of a byte sequence. -/
def pctEncodeBytes : List Nat → List Char
  | [] => []
  | b :: bs => pctEscape b ++ pctEncodeBytes bs

/-- encodeURIComponent on a single character. -/
def encodeChar (c : Char) : List Char :=
  if isUnreservedURI c then [c] else pctEncodeBytes (utf8Bytes c)

/-- encodeURIComponent on a character list. -/
def encodeURIComponentL : List Char → List Char
  | [] => []
  | c :: cs => encodeChar c ++ encodeURIComponentL cs

/-- The placeholder src/index.ts substitutes for slashes,
the string literal __SLASH__. -/
def SLASH_PLACEHOLDER : List Char := ['_', '_', 'S', 'L', 'A', 'S', 'H', '_', '_']

/-- key.replace of all slashes by the placeholder. -/
def expandSlashes : List Char → List Char
  | [] => []
  | c :: cs => (if c = '/' then SLASH_PLACEHOLDER else [c]) ++ expandSlashes cs

/-- Boolean prefix test on character lists. -/
def startsWithL : List Char → List Char → Bool
  | [], _ => true
  | _ :: _, [] => false
  | p :: ps, c :: cs => p == c && startsWithL ps cs

/-- Boolean substring test on character lists. -/
def containsL (pat : List Char) : List Char → Bool
  | [] => startsWithL pat []
  | c :: cs => startsWithL pat (c :: cs) || containsL pat cs

/-- Fuel-indexed worker for the global literal replacement; the fuel
bounds the number of scan positions (one unit per position examined)
and is supplied as the input length, which always suffices because
every step consumes at least one character. -/
def replaceAllLAux (pat rep : List Char) : Nat → List Char → List Char
  | _, [] => []
  | 0, s => s
  | fuel + 1, c :: cs =>
    if pat ≠ [] ∧ startsWithL pat (c :: cs) = true then
      rep ++ replaceAllLAux pat rep fuel (List.drop pat.length (c :: cs))
    else
      c :: replaceAllLAux pat rep fuel cs

/-- Global, leftmost, non-overlapping literal replacement, as
String.prototype.replace with a global regex of a literal pattern
performs it.  The pattern at the call sites is the non-empty
placeholder; the empty-pattern guard only avoids a stuck scan. -/
def replaceAllL (pat rep : List Char) (s : List Char) : List Char :=
  replaceAllLAux pat rep s.length s

/-- String.prototype.replace with a plain-string pattern and empty
replacement: remove the first occurrence only. -/
def stripFirstL (pat : List Char) : List Char → List Char
  | [] => []
  | c :: cs =>
    if startsWithL pat (c :: cs) then List.drop pat.length (c :: cs)
    else c :: stripFirstL pat cs

/-- Count of literal slash characters. -/
def countSlash : List Char → Nat
  | [] => 0
  | c :: cs => (if c = '/' then 1 else 0) + countSlash cs

/-- One percent escape: a percent sign followed by two hex digits
yields the byte and the remaining input; anything else is a decode
error. -/
def pctByte : List Char → Option (Nat × List Char)
  | '%' :: h1 :: h2 :: rest =>
    match hexVal h1, hexVal h2 with
    | some a1, some a2 => some (16 * a1 + a2, rest)
    | _, _ => none
  | _ => none

/-- Reads count UTF-8 continuation escapes, accumulating the scalar
value. -/
def decodeUTF8Cont : Nat → Nat → List Char → Option (Nat × List Char)
  | 0, acc, s => some (acc, s)
  | k + 1, acc, s =>
    match pctByte s with
    | some (b, rest) =>
      if 128 ≤ b ∧ b < 192 then decodeUTF8Cont k (acc * 64 + (b - 128)) rest
      else none
    | none => none

/-- Fuel-indexed decodeURIComponent worker; the fuel bounds the number
of decoded output characters (one unit each) and is supplied as the
input length, which always suffices because every character consumes
at least one input position. -/
def decodeURIComponentLAux : Nat → List Char → Option (List Char)
  | _, [] => some []
  | 0, _ :: _ => none
  | fuel + 1, c :: s =>
    if c = '%' then
      match pctByte (c :: s) with
      | none => none
      | some (b0, rest) =>
        if b0 < 128 then
          (decodeURIComponentLAux fuel rest).map (fun l => Char.ofNat b0 :: l)
        else if 194 ≤ b0 ∧ b0 < 224 then
          match decodeUTF8Cont 1 (b0 - 192) rest with
          | some (n, rest2) =>
            (decodeURIComponentLAux fuel rest2).map (fun l => Char.ofNat n :: l)
          | none => none
        else if 224 ≤ b0 ∧ b0 < 240 then
          match decodeUTF8Cont 2 (b0 - 224) rest with
          | some (n, rest2) =>
            if 2048 ≤ n ∧ ¬(55296 ≤ n ∧ n < 57344) then
              (decodeURIComponentLAux fuel rest2).map (fun l => Char.ofNat n :: l)
            else none
          | none => none
        else if 240 ≤ b0 ∧ b0 < 248 then
          match decodeUTF8Cont 3 (b0 - 240) rest with
          | some (n, rest2) =>
            if 65536 ≤ n ∧ n < 1114112 then
              (decodeURIComponentLAux fuel rest2).map (fun l => Char.ofNat n :: l)
            else none
          | none => none
        else none
    else
      (decodeURIComponentLAux fuel s).map (fun l => c :: l)

/-- decodeURIComponent: literal characters pass through, percent
escapes are decoded as UTF-8 (continuation-byte, overlong, surrogate
and range checks as the ECMAScript decoder performs them); none models
the thrown URIError. -/
def decodeURIComponentL (s : List Char) : Option (List Char) :=
  decodeURIComponentLAux s.length s

/-- S3Store.formatKey: placeholder substitution, sanitize,
percent-encode, restore literal separators, prepend the configured
prefix; a ConfigurationError for an invalid key. -/
def S3Store.formatKey (cfg : Config) (key : String) : Except CacheError String :=
  if isValidCacheKey key then
    let keyWithPlaceholders := expandSlashes key.data
    let sanitized := sanitize keyWithPlaceholders
    let encoded := encodeURIComponentL sanitized
    let withSlashes := replaceAllL (encodeURIComponentL SLASH_PLACEHOLDER) ['/'] encoded
    Except.ok (cfg.keyPrefix ++ String.mk withSlashes)
  else
    Except.error (CacheError.configurationError "Cache key must be a non-empty string")

/-- The scan result-key decoding of src/index.ts line 529:
decodeURIComponent(objKey.replace(config.prefix, '')); none models the
URIError decodeURIComponent can throw. -/
def S3Store.decodeScanKey (cfg : Config) (storageKey : String) : Option String :=
  (decodeURIComponentL (stripFirstL cfg.keyPrefix.data storageKey.data)).map String.mk

/-- The middle of the formatKey pipeline on an already-sanitized key:
percent-encoding of the slash-expanded character list. -/
def encExpand (l : List Char) : List Char :=
  encodeURIComponentL (expandSlashes l)

/-- Per-character encoding with separators kept literal: the shape the
formatKey pipeline produces for keys made of sanitizer-safe characters
and slashes. -/
def encodeSlashAware : List Char → List Char
  | [] => []
  | c :: cs => (if c = '/' then ['/'] else encodeChar c) ++ encodeSlashAware cs

/-- Key pattern whose presence breaks the placeholder round trip:
the placeholder itself. -/
def badPat1 : List Char := SLASH_PLACEHOLDER

/-- Key pattern whose presence breaks the placeholder round trip:
a separator directly preceded by the placeholder minus its final two
underscores (the literal __SLASH/). -/
def badPat2 : List Char := ['_', '_', 'S', 'L', 'A', 'S', 'H', '/']

/-- Key pattern whose presence breaks the placeholder round trip:
a separator directly preceded by the placeholder minus its final
underscore (the literal __SLASH_/). -/
def badPat3 : List Char := ['_', '_', 'S', 'L', 'A', 'S', 'H', '_', '/']

/-! ## get: response handling -/

/-- The GetObject response body: a Readable whose stream-to-string
conversion yields a string or fails, or an unexpected body shape. -/
inductive GetBody where
  | readable (streamResult : Option String)
  | notReadable
deriving DecidableEq

/-- Outcome of the storage read issued by get. -/
inductive S3GetResult where
  | ok (metadata : Option (List (String × String))) (body : GetBody)
  | err (e : S3ErrorInfo)
deriving DecidableEq

/-- A completion-callback invocation: callback(error),
callback(null, null), or callback(null, value). -/
inductive CbResult (T : Type) where
  | failure (e : CacheError)
  | miss
  | success (v : T)
deriving DecidableEq

/-- The response-handling continuation of S3Store.get (src/index.ts
lines 239-278).  parse models JSON.parse on the body text.  The first
component records whether a lazy-cleanup delete was issued; delOutcome
is the result of that delete, which the closure passed to del drops. -/
def S3Store.getAfterResponse {T : Type} (parse : String → Option T) (now : Int)
    (res : S3GetResult) (delOutcome : Option CacheError) : Bool × CbResult T :=
  match res with
  | .err e =>
    if e.name = some "NoSuchKey" || e.httpStatusCode = some 404 then
      (false, CbResult.miss)
    else
      (false, CbResult.failure
        (CacheError.s3OperationError "Failed to retrieve cache entry" e.httpStatusCode))
  | .ok metadata body =>
    if (match metadata with
        | some m => S3Store.isExpired m now
        | none => false) then
      (true, CbResult.miss)
    else
      match body with
      | .readable none =>
        (false, CbResult.failure (CacheError.s3OperationError "Failed to read stream" none))
      | .readable (some bodyText) =>
        match parse bodyText with
        | some value => (false, CbResult.success value)
        | none =>
          (false, CbResult.failure (CacheError.serializationError "Failed to parse cached value"))
      | .notReadable =>
        (false, CbResult.failure
          (CacheError.s3OperationError "Unexpected response body format" none))

/-- S3Store.get: key formatting (whose ConfigurationError the catch
reports through the callback), the storage read, then the response
handling. -/
def S3Store.get {T : Type} (cfg : Config) (parse : String → Option T) (now : Int)
    (key : String) (fetch : String → S3GetResult) (delOutcome : Option CacheError) :
    Bool × CbResult T :=
  match S3Store.formatKey cfg key with
  | .error e => (false, CbResult.failure e)
  | .ok s3Key => S3Store.getAfterResponse parse now (fetch s3Key) delOutcome

/-! ## set -/

/-- PutObject parameters assembled by set. -/
structure PutParams where
  bucket : String
  key : String
  body : String
  contentType : String
  metadata : List (String × String)
  storageClass : Option String
  serverSideEncryption : Option String
deriving DecidableEq

/-- What set does before any storage interaction: report a validation
error through the callback, or issue the PutObject call. -/
inductive SetStep where
  | err (e : CacheError)
  | put (p : PutParams)
deriving DecidableEq

/-- True when the step reports a SerializationError. -/
def SetStep.isSerializationErr : SetStep → Bool
  | .err (CacheError.serializationError _) => true
  | _ => false

/-- True when the step reports a TTLError. -/
def SetStep.isTtlErr : SetStep → Bool
  | .err (CacheError.ttlError _) => true
  | _ => false

/-- S3Store.set up to the storage write (src/index.ts lines 293-370):
TTL resolution and validation, the undefined-value check, key
formatting, expiry computation, serialization (stringify models
JSON.stringify; none models a throw), metadata assembly, PutObject
parameters.  value none models the JS undefined value; now is
Date.now() in epoch milliseconds. -/
def S3Store.set {T : Type} (cfg : Config) (key : String) (value : Option T)
    (ttl : TTLInput) (now : Nat) (stringify : T → Option String) : SetStep :=
  let resolved : Except CacheError Int :=
    match ttl with
    | .omitted => Except.ok cfg.defaultTtl
    | .num n =>
      if isValidTTL (.num n) then Except.ok n
      else Except.error (CacheError.ttlError "TTL must be a positive number or -1 for infinite")
    | .nonNumber =>
      Except.error (CacheError.ttlError "TTL must be a positive number or -1 for infinite")
  match resolved with
  | .error e => SetStep.err e
  | .ok actualTtl =>
    match value with
    | none => SetStep.err (CacheError.serializationError "Value cannot be undefined")
    | some v =>
      match S3Store.formatKey cfg key with
      | .error e => SetStep.err e
      | .ok s3Key =>
        let expireAt : Int := if actualTtl = -1 then -1 else (now : Int) + actualTtl * 1000
        match stringify v with
        | none => SetStep.err (CacheError.serializationError "Failed to serialize value")
        | some serializedValue =>
          let metadata : List (String × String) :=
            [("cache-created", toString now), ("cache-version", "1.0")] ++
              (if expireAt ≠ -1 then [("cache-ttl", toString expireAt)] else [])
          SetStep.put
            (PutParams.mk cfg.bucket s3Key serializedValue "application/json" metadata
              cfg.storageClass cfg.serverSideEncryption)

/-! ## clear -/

/-- Fuel-indexed worker for chunkArray; the fuel bounds the number of
slices (one unit per slice) and is supplied as the input length, which
always suffices because every slice consumes at least one element. -/
def chunkArrayAux {α : Type} : Nat → List α → Nat → List (List α)
  | _, [], _ => []
  | _, _ :: _, 0 => []
  | 0, _ :: _, _ + 1 => []
  | fuel + 1, a :: as, n + 1 =>
    List.take (n + 1) (a :: as) :: chunkArrayAux fuel (List.drop (n + 1) (a :: as)) (n + 1)

/-- S3Store.chunkArray: slices of at most chunkSize elements.  The
source is only ever called with chunkSize 1000; the zero case is
unreachable and returns no batches. -/
def chunkArray {α : Type} (array : List α) (chunkSize : Nat) : List (List α) :=
  chunkArrayAux array.length array chunkSize

/-- The mutable state of clear's batch fan-out: the completed counter,
the hasError flag, and the callback invocations performed so far. -/
structure ClearState where
  completed : Nat
  hasError : Bool
  calls : List (Option CacheError)
deriving DecidableEq

/-- One batch-delete completion arriving at clear's handlers
(src/index.ts lines 446-464): none is a fulfilled DeleteObjects call,
some e a rejected one. -/
def clearBatchStep (n : Nat) (st : ClearState) (r : Option S3ErrorInfo) : ClearState :=
  match r with
  | none =>
    if st.hasError then st
    else
      ClearState.mk (st.completed + 1) false
        (if st.completed + 1 = n then st.calls ++ [none] else st.calls)
  | some e =>
    if st.hasError then st
    else
      ClearState.mk st.completed true
        (st.calls ++ [some (CacheError.s3OperationError "Failed to clear cache" e.httpStatusCode)])

/-- S3Store.clear as the list of callback invocations it performs:
listing failure, empty listing, or the batch fan-out processed in
completion order (arrivals is the batch results in the order their
completions are scheduled). -/
def S3Store.clearCalls (listing : Except S3ErrorInfo (List String))
    (arrivals : List (Option S3ErrorInfo)) : List (Option CacheError) :=
  match listing with
  | .error e =>
    [some (CacheError.s3OperationError "Failed to list objects" e.httpStatusCode)]
  | .ok objects =>
    if objects.length = 0 then [none]
    else
      (arrivals.foldl (clearBatchStep (chunkArray objects 1000).length)
        (ClearState.mk 0 false [])).calls

/-! ## scan -/

/-- One listing entry; the SDK marks Key optional. -/
structure ScanObj where
  key : Option String
deriving DecidableEq

/-- ListObjectsV2 output fields scan reads. -/
structure ListResult where
  contents : List ScanObj
  isTruncated : Bool
  nextContinuationToken : Option String
deriving DecidableEq

/-- The scan cursor: IsTruncated ? NextContinuationToken ?? 1 : 0. -/
inductive Cursor where
  | num (n : Nat)
  | token (s : String)
deriving DecidableEq

/-- Result shape of scan. -/
structure ScanResult (T : Type) where
  cursor : Cursor
  entries : List (String × T)
deriving DecidableEq

/-- Cursor computation of src/index.ts lines 522 and 539. -/
def scanCursor (res : ListResult) : Cursor :=
  if res.isTruncated then
    match res.nextContinuationToken with
    | some t => Cursor.token t
    | none => Cursor.num 1
  else Cursor.num 0

/-- Per-object processing of scan: skip entries without a Key, decode
the storage key, look the logical key up (getResult models the get
issued per key, as a function of the logical key), and keep only
successful non-null lookups.  none models the decode throwing, which
the promise chain turns into a scan failure.  The source pushes
entries in completion order of the concurrent lookups; the model uses
listing order, and claim C9 is insensitive to the order. -/
def scanCollect {T : Type} (cfg : Config) (getResult : String → CbResult T) :
    List ScanObj → Option (List (String × T))
  | [] => some []
  | obj :: rest =>
    match obj.key with
    | none => scanCollect cfg getResult rest
    | some sk =>
      match S3Store.decodeScanKey cfg sk with
      | none => none
      | some originalKey =>
        match getResult originalKey with
        | .success data =>
          (scanCollect cfg getResult rest).map (fun l => (originalKey, data) :: l)
        | _ => scanCollect cfg getResult rest

/-- The listing-response handling of scan (src/index.ts lines 508-543). -/
def S3Store.scanAfterList {T : Type} (cfg : Config) (getResult : String → CbResult T)
    (res : ListResult) : CbResult (ScanResult T) :=
  if res.contents.length = 0 then CbResult.success (ScanResult.mk (Cursor.num 0) [])
  else
    match scanCollect cfg getResult res.contents with
    | none => CbResult.failure (CacheError.s3OperationError "Failed to scan cache entries" none)
    | some entries => CbResult.success (ScanResult.mk (scanCursor res) entries)

/-- True when a callback result is a success invocation. -/
def CbResult.isSuccessCb {T : Type} : CbResult T → Bool
  | .success _ => true
  | _ => false

/-- Entries of a successful scan callback; empty otherwise. -/
def scanEntriesOf {T : Type} : CbResult (ScanResult T) → List (String × T)
  | .success sr => sr.entries
  | _ => []

/-- S3Store.scan: a failed listing is wrapped as S3OperationError,
a successful one is processed by scanAfterList. -/
def S3Store.scan {T : Type} (cfg : Config) (getResult : String → CbResult T)
    (listing : Except S3ErrorInfo ListResult) : CbResult (ScanResult T) :=
  match listing with
  | .error e =>
    CbResult.failure (CacheError.s3OperationError "Failed to scan cache entries" e.httpStatusCode)
  | .ok res => S3Store.scanAfterList cfg getResult res

/-! ## healthCheck -/

/-- Outcome of the HeadBucket probe. -/
inductive ProbeResult where
  | ok
  | fail (message : Option String)
deriving DecidableEq

/-- Health check result record. -/
structure HealthStatus where
  status : String
  bucket : String
  region : String
  sdkVersion : String
  error : Option String
deriving DecidableEq

/-- S3Store.healthCheck (src/index.ts lines 555-577): the pair is the
callback's (error, result) arguments. -/
def S3Store.healthCheck (cfg : Config) (probe : ProbeResult) :
    Option CacheError × HealthStatus :=
  match probe with
  | .ok =>
    (none, HealthStatus.mk "healthy" cfg.bucket cfg.region "v3" none)
  | .fail msg =>
    (none, HealthStatus.mk "unhealthy" cfg.bucket cfg.region "v3"
      (some (msg.getD "Unknown error")))

/-! ## Theorems -/

/-- Claim C5: a storage-read failure whose error name is NoSuchKey or
whose status code is 404 makes get report a miss (null, null), never
an error; every other storage-read failure is reported as an
S3OperationError carrying the provider status code when available. -/
theorem get_not_found_is_miss {T : Type} (parse : String → Option T) (now : Int)
    (e : S3ErrorInfo) (delOutcome : Option CacheError) :
    (e.name = some "NoSuchKey" ∨ e.httpStatusCode = some 404 →
      S3Store.getAfterResponse parse now (S3GetResult.err e) delOutcome =
        (false, CbResult.miss)) ∧
    (e.name ≠ some "NoSuchKey" → e.httpStatusCode ≠ some 404 →
      S3Store.getAfterResponse parse now (S3GetResult.err e) delOutcome =
        (false, CbResult.failure
          (CacheError.s3OperationError "Failed to retrieve cache entry" e.httpStatusCode))) := by
  constructor
  · intro h
    rcases h with h | h <;> simp [S3Store.getAfterResponse, h]
  · intro h1 h2
    simp [S3Store.getAfterResponse, h1, h2]

/-- Claim C5 witness at a concrete NoSuchKey failure. -/
theorem get_not_found_is_miss_witness :
    S3Store.getAfterResponse (fun _ => (some true : Option Bool)) 0
        (S3GetResult.err (S3ErrorInfo.mk (some "NoSuchKey") none none)) none =
      (false, CbResult.miss) :=
  (get_not_found_is_miss (fun _ => (some true : Option Bool)) 0
    (S3ErrorInfo.mk (some "NoSuchKey") none none) none).1 (Or.inl rfl)

/-- Claim C6: when the stored cache-ttl attribute is present, parses,
and lies strictly below the current time, get issues a delete for the
key and reports a miss, regardless of the delete outcome and of the
body; the expired value is never returned. -/
theorem get_expired_deletes_and_misses {T : Type} (parse : String → Option T)
    (now : Int) (m : List (String × String)) (body : GetBody)
    (delOutcome : Option CacheError) (s : String) (t : Int)
    (hlook : lookupMeta "cache-ttl" m = some s)
    (hparse : jsParseInt s = some t)
    (hlt : t < now) :
    S3Store.getAfterResponse parse now (S3GetResult.ok (some m) body) delOutcome =
      (true, CbResult.miss) := by
  have hs : s ≠ "" := by
    intro h
    subst h
    exact Option.noConfusion ((rfl : jsParseInt "" = none) ▸ hparse)
  have hexp : S3Store.isExpired m now = true := by
    simp only [S3Store.isExpired, hlook]
    rw [if_neg hs]
    simp [hparse, hlt]
  simp [S3Store.getAfterResponse, hexp]

/-- Claim C6 witness at a concrete expired entry. -/
theorem get_expired_deletes_and_misses_witness :
    S3Store.getAfterResponse (fun _ => (some true : Option Bool)) 101
        (S3GetResult.ok (some [("cache-ttl", "100")]) GetBody.notReadable)
        (some (CacheError.s3OperationError "Failed to delete cache entry" none)) =
      (true, CbResult.miss) :=
  get_expired_deletes_and_misses (fun _ => (some true : Option Bool)) 101
    [("cache-ttl", "100")] GetBody.notReadable
    (some (CacheError.s3OperationError "Failed to delete cache entry" none))
    "100" 100 rfl rfl (by decide)

/-- Claim C10: a stored entry whose cache-ttl attribute is absent,
empty, or unparseable is treated as not expired, so get serves it for
every current time. -/
theorem isExpired_missing_or_malformed_ttl_not_expired {T : Type}
    (parse : String → Option T) (m : List (String × String)) (now : Int)
    (h : lookupMeta "cache-ttl" m = none ∨ lookupMeta "cache-ttl" m = some "" ∨
      (∃ s, lookupMeta "cache-ttl" m = some s ∧ jsParseInt s = none)) :
    S3Store.isExpired m now = false ∧
    (∀ (bodyText : String) (v : T) (delOutcome : Option CacheError),
      parse bodyText = some v →
      S3Store.getAfterResponse parse now
          (S3GetResult.ok (some m) (GetBody.readable (some bodyText))) delOutcome =
        (false, CbResult.success v)) := by
  have hexp : S3Store.isExpired m now = false := by
    rcases h with h | h | ⟨s, hs, hp⟩
    · simp [S3Store.isExpired, h]
    · simp [S3Store.isExpired, h]
    · simp only [S3Store.isExpired, hs]
      by_cases he : s = ""
      · simp [he]
      · rw [if_neg he]
        simp [hp]
  refine ⟨hexp, ?_⟩
  intro bodyText v delOutcome hpv
  simp [S3Store.getAfterResponse, hexp, hpv]

/-- Claim C10 witness at a concrete entry with no cache-ttl attribute. -/
theorem isExpired_missing_or_malformed_ttl_not_expired_witness :
    S3Store.getAfterResponse (fun _ => (some true : Option Bool)) 999999999
        (S3GetResult.ok (some [("cache-version", "1.0")]) (GetBody.readable (some "true")))
        none =
      (false, CbResult.success true) :=
  (isExpired_missing_or_malformed_ttl_not_expired (fun _ => (some true : Option Bool))
    [("cache-version", "1.0")] 999999999 (Or.inl rfl)).2 "true" true none rfl

/-- Claim C7: healthCheck never reports through the error argument; a
successful probe yields the healthy record, any failure yields an
unhealthy record with a populated error message field. -/
theorem healthCheck_never_errors (cfg : Config) (probe : ProbeResult) :
    (S3Store.healthCheck cfg probe).1 = none ∧
    (probe = ProbeResult.ok →
      (S3Store.healthCheck cfg probe).2 =
        HealthStatus.mk "healthy" cfg.bucket cfg.region "v3" none) ∧
    (∀ msg, probe = ProbeResult.fail msg →
      (S3Store.healthCheck cfg probe).2.status = "unhealthy" ∧
      ((S3Store.healthCheck cfg probe).2.error).isSome = true) := by
  cases probe <;> simp [S3Store.healthCheck]

/-- Claim C7 witness at a concrete failed probe without a message. -/
theorem healthCheck_never_errors_witness :
    (S3Store.healthCheck (Config.mk "bucket" "us-east-1" "" 60 none none)
        (ProbeResult.fail none)).2.status = "unhealthy" ∧
    ((S3Store.healthCheck (Config.mk "bucket" "us-east-1" "" 60 none none)
        (ProbeResult.fail none)).2.error).isSome = true :=
  (healthCheck_never_errors (Config.mk "bucket" "us-east-1" "" 60 none none)
    (ProbeResult.fail none)).2.2 none rfl

/-- Claim C4: a supplied TTL that is neither -1 nor a positive number
makes set report a TTLError and issue no storage write. -/
theorem set_invalid_ttl_rejected {T : Type} (cfg : Config) (key : String)
    (value : Option T) (ttl : TTLInput) (now : Nat) (stringify : T → Option String)
    (hsup : ttl ≠ TTLInput.omitted) (hinv : isValidTTL ttl = false) :
    S3Store.set cfg key value ttl now stringify =
      SetStep.err (CacheError.ttlError "TTL must be a positive number or -1 for infinite") ∧
    ∀ p, S3Store.set cfg key value ttl now stringify ≠ SetStep.put p := by
  have h1 : S3Store.set cfg key value ttl now stringify =
      SetStep.err (CacheError.ttlError "TTL must be a positive number or -1 for infinite") := by
    cases ttl with
    | omitted => exact absurd rfl hsup
    | num n => simp [S3Store.set, hinv]
    | nonNumber => simp [S3Store.set]
  refine ⟨h1, fun p hp => ?_⟩
  rw [h1] at hp
  exact SetStep.noConfusion hp

/-- Claim C4 witness at TTL 0. -/
theorem set_invalid_ttl_rejected_witness :
    S3Store.set (Config.mk "bucket" "us-east-1" "" 60 none none) "key"
        (some true) (TTLInput.num 0) 0 (fun _ => some "true") =
      SetStep.err (CacheError.ttlError "TTL must be a positive number or -1 for infinite") :=
  (set_invalid_ttl_rejected (Config.mk "bucket" "us-east-1" "" 60 none none) "key"
    (some true) (TTLInput.num 0) 0 (fun _ => some "true") (by decide) (by decide)).1

/-- Claim C1 counterexample: set invoked with an undefined value and an
invalid TTL (0) does not report a SerializationError; it reports a
TTLError, because the source checks the TTL before the value. -/
theorem set_undefined_with_invalid_ttl_reports_ttl_error_cex :
    (S3Store.set (Config.mk "bucket" "us-east-1" "" 60 none none) "key"
      (none : Option Bool) (TTLInput.num 0) 0 (fun _ => some "true")).isSerializationErr
        = false ∧
    (S3Store.set (Config.mk "bucket" "us-east-1" "" 60 none none) "key"
      (none : Option Bool) (TTLInput.num 0) 0 (fun _ => some "true")).isTtlErr = true := by
  constructor
  · rfl
  · rfl

/-- Claim C1 as amended: the TTL check precedes the undefined-value
check, so set invoked with an undefined value together with an invalid
supplied TTL reports a TTLError, not a SerializationError, and no
storage call is made. -/
theorem set_undefined_with_invalid_ttl_reports_ttl_error {T : Type} (cfg : Config)
    (key : String) (ttl : TTLInput) (now : Nat) (stringify : T → Option String)
    (hsup : ttl ≠ TTLInput.omitted) (hinv : isValidTTL ttl = false) :
    S3Store.set cfg key (none : Option T) ttl now stringify =
      SetStep.err (CacheError.ttlError "TTL must be a positive number or -1 for infinite") ∧
    (S3Store.set cfg key (none : Option T) ttl now stringify).isSerializationErr = false ∧
    (∀ p, S3Store.set cfg key (none : Option T) ttl now stringify ≠ SetStep.put p) := by
  have h1 : S3Store.set cfg key (none : Option T) ttl now stringify =
      SetStep.err (CacheError.ttlError "TTL must be a positive number or -1 for infinite") := by
    cases ttl with
    | omitted => exact absurd rfl hsup
    | num n => simp [S3Store.set, hinv]
    | nonNumber => simp [S3Store.set]
  refine ⟨h1, ?_, fun p hp => ?_⟩
  · rw [h1]
    rfl
  · rw [h1] at hp
    exact SetStep.noConfusion hp

/-- Claim C1 witness of the amended statement at an undefined value and
TTL 0. -/
theorem set_undefined_with_invalid_ttl_reports_ttl_error_witness :
    S3Store.set (Config.mk "bucket" "us-east-1" "" 60 none none) "key"
        (none : Option Bool) (TTLInput.num 0) 7 (fun _ => some "true") =
      SetStep.err (CacheError.ttlError "TTL must be a positive number or -1 for infinite") :=
  (set_undefined_with_invalid_ttl_reports_ttl_error
    (Config.mk "bucket" "us-east-1" "" 60 none none) "key" (TTLInput.num 0) 7
    (fun _ => some "true") (by decide) (by decide)).1

/-- Claim C3: a set call whose effective TTL is -1 writes metadata
holding only the created timestamp and the version, never a cache-ttl
attribute. -/
theorem set_infinite_ttl_metadata_no_expiry {T : Type} (cfg : Config) (key : String)
    (v : T) (ttl : TTLInput) (now : Nat) (stringify : T → Option String) (body : String)
    (httl : ttl = TTLInput.num (-1) ∨ (ttl = TTLInput.omitted ∧ cfg.defaultTtl = -1))
    (hkey : isValidCacheKey key = true)
    (hser : stringify v = some body) :
    ∃ p, S3Store.set cfg key (some v) ttl now stringify = SetStep.put p ∧
      p.metadata = [("cache-created", toString now), ("cache-version", "1.0")] ∧
      lookupMeta "cache-ttl" p.metadata = none := by
  obtain ⟨sk, hsk⟩ : ∃ sk, S3Store.formatKey cfg key = Except.ok sk := by
    simp [S3Store.formatKey, hkey]
  have hmeta : lookupMeta "cache-ttl"
      [("cache-created", toString now), ("cache-version", "1.0")] = none := by
    simp [lookupMeta]
  rcases httl with h | ⟨h, hd⟩
  · subst h
    refine ⟨PutParams.mk cfg.bucket sk body "application/json"
      [("cache-created", toString now), ("cache-version", "1.0")]
      cfg.storageClass cfg.serverSideEncryption, ?_, rfl, hmeta⟩
    simp [S3Store.set, isValidTTL, hsk, hser]
  · subst h
    refine ⟨PutParams.mk cfg.bucket sk body "application/json"
      [("cache-created", toString now), ("cache-version", "1.0")]
      cfg.storageClass cfg.serverSideEncryption, ?_, rfl, hmeta⟩
    simp [S3Store.set, hsk, hser, hd]

/-- Claim C3 witness at a concrete infinite-TTL write. -/
theorem set_infinite_ttl_metadata_no_expiry_witness :
    ∃ p, S3Store.set (Config.mk "bucket" "us-east-1" "" 60 none none) "key"
        (some true) (TTLInput.num (-1)) 1700000000000 (fun _ => some "true") =
          SetStep.put p ∧
      p.metadata = [("cache-created", "1700000000000"), ("cache-version", "1.0")] ∧
      lookupMeta "cache-ttl" p.metadata = none :=
  set_infinite_ttl_metadata_no_expiry (Config.mk "bucket" "us-east-1" "" 60 none none)
    "key" true (TTLInput.num (-1)) 1700000000000 (fun _ => some "true") "true"
    (Or.inl rfl) (by decide) rfl

/-- A clear state with hasError set absorbs every later completion. -/
theorem foldl_clearBatchStep_frozen (n : Nat) (arr : List (Option S3ErrorInfo))
    (st : ClearState) (h : st.hasError = true) :
    arr.foldl (clearBatchStep n) st = st := by
  induction arr with
  | nil => rfl
  | cons r rest ih =>
    have hstep : clearBatchStep n st r = st := by
      cases r <;> simp [clearBatchStep, h]
    rw [List.foldl_cons, hstep]
    exact ih

/-- Master description of clear's batch fan-out: from a clean state
whose completed counter accounts for the arriving batches, exactly one
callback is performed, determined by the first failure if any. -/
theorem foldl_clearBatchStep_calls (n : Nat) (arr : List (Option S3ErrorInfo)) :
    ∀ (st : ClearState), st.hasError = false → st.calls = [] →
      st.completed + arr.length = n → arr ≠ [] →
      (arr.foldl (clearBatchStep n) st).calls =
        [(arr.findSome? (fun r => r)).map
          (fun e => CacheError.s3OperationError "Failed to clear cache" e.httpStatusCode)] := by
  induction arr with
  | nil =>
    intro st _ _ _ hne
    exact absurd rfl hne
  | cons r rest ih =>
    intro st hhe hca hcnt _
    cases r with
    | none =>
      cases rest with
      | nil =>
        have hc : st.completed + 1 = n := by simpa using hcnt
        simp [clearBatchStep, hhe, hca, hc, List.findSome?]
      | cons r2 rest2 =>
        have hne2 : ¬(st.completed + 1 = n) := by
          simp only [List.length_cons] at hcnt
          omega
        have hstep : clearBatchStep n st none = ClearState.mk (st.completed + 1) false [] := by
          simp [clearBatchStep, hhe, hne2, hca]
        rw [List.foldl_cons, hstep]
        rw [ih (ClearState.mk (st.completed + 1) false []) rfl rfl
          (by simp only [List.length_cons] at hcnt ⊢; omega) (by simp)]
        simp [List.findSome?]
    | some e =>
      have hstep : clearBatchStep n st (some e) = ClearState.mk st.completed true
          [some (CacheError.s3OperationError "Failed to clear cache" e.httpStatusCode)] := by
        simp [clearBatchStep, hhe, hca]
      rw [List.foldl_cons, hstep, foldl_clearBatchStep_frozen n rest _ rfl]
      simp [List.findSome?]

/-- One non-empty listing page always produces at least one batch. -/
theorem chunkArray_cons_ne_nil {α : Type} (a : α) (as : List α) (n : Nat) :
    chunkArray (a :: as) (n + 1) ≠ [] := by
  simp [chunkArray, chunkArrayAux]

/-- The identity findSome? is none exactly on all-none lists. -/
theorem findSome?_id_of_all_none {α : Type} (l : List (Option α))
    (h : ∀ r ∈ l, r = none) : l.findSome? (fun r => r) = none := by
  induction l with
  | nil => rfl
  | cons a as ih =>
    have ha := h a (List.mem_cons_self a as)
    subst ha
    simp only [List.findSome?]
    exact ih (fun r hr => h r (List.mem_cons_of_mem none hr))

/-- Claim C8: clear reports success immediately when the listing is
empty; otherwise success is reported only when every batch delete
succeeds, the first batch failure (in completion order) is the one
reported, later failures are suppressed, and the callback is invoked
exactly once in every case, a listing failure included. -/
theorem clear_callback_semantics (listing : Except S3ErrorInfo (List String))
    (arrivals : List (Option S3ErrorInfo))
    (hlen : ∀ objects, listing = Except.ok objects →
      arrivals.length = (chunkArray objects 1000).length) :
    (S3Store.clearCalls listing arrivals).length = 1 ∧
    (∀ objects, listing = Except.ok objects → objects = [] →
      S3Store.clearCalls listing arrivals = [none]) ∧
    (∀ objects, listing = Except.ok objects → objects ≠ [] →
      ((∀ r ∈ arrivals, r = none) → S3Store.clearCalls listing arrivals = [none]) ∧
      (∀ e, arrivals.findSome? (fun r => r) = some e →
        S3Store.clearCalls listing arrivals =
          [some (CacheError.s3OperationError "Failed to clear cache" e.httpStatusCode)])) := by
  cases listing with
  | error e =>
    refine ⟨rfl, ?_, ?_⟩
    · intro objects h
      exact Except.noConfusion h
    · intro objects h
      exact Except.noConfusion h
  | ok objects =>
    have hlen2 := hlen objects rfl
    cases objects with
    | nil =>
      refine ⟨by simp [S3Store.clearCalls], fun _ _ _ => by simp [S3Store.clearCalls], ?_⟩
      intro objects2 hh hne
      injection hh with hh2
      exact absurd hh2.symm hne
    | cons a as =>
      have hn1 : (chunkArray (a :: as) 1000).length ≠ 0 := by
        intro hzz
        exact chunkArray_cons_ne_nil a as 999 (List.eq_nil_of_length_eq_zero hzz)
      have harr : arrivals ≠ [] := by
        intro hh
        subst hh
        exact hn1 hlen2.symm
      have hcc : S3Store.clearCalls (Except.ok (a :: as)) arrivals =
          [(arrivals.findSome? (fun r => r)).map
            (fun e => CacheError.s3OperationError "Failed to clear cache" e.httpStatusCode)] := by
        simp only [S3Store.clearCalls]
        rw [if_neg (by simp)]
        exact foldl_clearBatchStep_calls (chunkArray (a :: as) 1000).length arrivals
          (ClearState.mk 0 false []) rfl rfl (by simpa using hlen2) harr
      refine ⟨by rw [hcc]; rfl, ?_, ?_⟩
      · intro objects2 hh habs
        injection hh with hh2
        rw [← hh2] at habs
        exact List.noConfusion habs
      · intro objects2 _ _
        constructor
        · intro hall
          rw [hcc, findSome?_id_of_all_none arrivals hall]
          rfl
        · intro e2 he2
          rw [hcc, he2]
          rfl

/-- Claim C8 witness: a single failing batch is reported as the one
clear error. -/
theorem clear_callback_semantics_witness :
    S3Store.clearCalls (Except.ok ["a", "b"]) [some (S3ErrorInfo.mk none (some 500) none)] =
      [some (CacheError.s3OperationError "Failed to clear cache" (some 500))] :=
  ((clear_callback_semantics (Except.ok ["a", "b"])
      [some (S3ErrorInfo.mk none (some 500) none)]
      (by intro objects h; injection h with h2; subst h2; rfl)).2.2 ["a", "b"] rfl
      (by simp)).2 (S3ErrorInfo.mk none (some 500) none) rfl

/-- Description of scanCollect when every listed key decodes: it
succeeds and keeps exactly the successful lookups. -/
theorem scanCollect_eq {T : Type} (cfg : Config) (getResult : String → CbResult T) :
    ∀ (objs : List ScanObj),
      (∀ o ∈ objs, ∀ sk, o.key = some sk → (S3Store.decodeScanKey cfg sk).isSome = true) →
      ∃ entries, scanCollect cfg getResult objs = some entries ∧
        ∀ k v, ((k, v) ∈ entries ↔
          ∃ o ∈ objs, ∃ sk, o.key = some sk ∧
            S3Store.decodeScanKey cfg sk = some k ∧ getResult k = CbResult.success v) := by
  intro objs
  induction objs with
  | nil =>
    intro _
    refine ⟨[], rfl, ?_⟩
    simp
  | cons obj rest ih =>
    intro h
    obtain ⟨entries, hco, hiff⟩ :=
      ih (fun o ho sk hsk => h o (List.mem_cons_of_mem obj ho) sk hsk)
    cases hobj : obj.key with
    | none =>
      refine ⟨entries, by simp [scanCollect, hobj, hco], ?_⟩
      intro k v
      rw [hiff k v]
      constructor
      · rintro ⟨o, ho, sk, hsk, hd, hg⟩
        exact ⟨o, List.mem_cons_of_mem obj ho, sk, hsk, hd, hg⟩
      · rintro ⟨o, ho, sk, hsk, hd, hg⟩
        rcases List.mem_cons.mp ho with rfl | ho2
        · rw [hobj] at hsk
          exact Option.noConfusion hsk
        · exact ⟨o, ho2, sk, hsk, hd, hg⟩
    | some sk =>
      have hdec := h obj (List.mem_cons_self obj rest) sk hobj
      obtain ⟨dk, hdk⟩ := Option.isSome_iff_exists.mp hdec
      cases hget : getResult dk with
      | success data =>
        refine ⟨(dk, data) :: entries, by simp [scanCollect, hobj, hdk, hget, hco], ?_⟩
        intro k v
        constructor
        · intro hmem
          rcases List.mem_cons.mp hmem with heq | hmem2
          · have hk : k = dk := congrArg Prod.fst heq
            have hv : v = data := congrArg Prod.snd heq
            subst hk
            subst hv
            exact ⟨obj, List.mem_cons_self obj rest, sk, hobj, hdk, hget⟩
          · obtain ⟨o, ho, sk2, hsk2, hd2, hg2⟩ := (hiff k v).mp hmem2
            exact ⟨o, List.mem_cons_of_mem obj ho, sk2, hsk2, hd2, hg2⟩
        · rintro ⟨o, ho, sk2, hsk2, hd2, hg2⟩
          rcases List.mem_cons.mp ho with rfl | ho2
          · rw [hobj] at hsk2
            injection hsk2 with hsk3
            subst hsk3
            rw [hdk] at hd2
            injection hd2 with hd3
            subst hd3
            rw [hget] at hg2
            injection hg2 with hg3
            subst hg3
            exact List.mem_cons_self (dk, data) entries
          · exact List.mem_cons_of_mem (dk, data) ((hiff k v).mpr ⟨o, ho2, sk2, hsk2, hd2, hg2⟩)
      | failure e =>
        refine ⟨entries, by simp [scanCollect, hobj, hdk, hget, hco], ?_⟩
        intro k v
        rw [hiff k v]
        constructor
        · rintro ⟨o, ho, sk2, hsk2, hd2, hg2⟩
          exact ⟨o, List.mem_cons_of_mem obj ho, sk2, hsk2, hd2, hg2⟩
        · rintro ⟨o, ho, sk2, hsk2, hd2, hg2⟩
          rcases List.mem_cons.mp ho with rfl | ho2
          · rw [hobj] at hsk2
            injection hsk2 with hsk3
            subst hsk3
            rw [hdk] at hd2
            injection hd2 with hd3
            subst hd3
            rw [hget] at hg2
            exact CbResult.noConfusion hg2
          · exact ⟨o, ho2, sk2, hsk2, hd2, hg2⟩
      | miss =>
        refine ⟨entries, by simp [scanCollect, hobj, hdk, hget, hco], ?_⟩
        intro k v
        rw [hiff k v]
        constructor
        · rintro ⟨o, ho, sk2, hsk2, hd2, hg2⟩
          exact ⟨o, List.mem_cons_of_mem obj ho, sk2, hsk2, hd2, hg2⟩
        · rintro ⟨o, ho, sk2, hsk2, hd2, hg2⟩
          rcases List.mem_cons.mp ho with rfl | ho2
          · rw [hobj] at hsk2
            injection hsk2 with hsk3
            subst hsk3
            rw [hdk] at hd2
            injection hd2 with hd3
            subst hd3
            rw [hget] at hg2
            exact CbResult.noConfusion hg2
          · exact ⟨o, ho2, sk2, hsk2, hd2, hg2⟩

/-- Claim C9: scan looks every decoded listed key up via get, silently
omits every key whose lookup reports an error or a miss, and still
reports success carrying exactly the remaining entries. -/
theorem scan_omits_failed_lookups {T : Type} (cfg : Config)
    (getResult : String → CbResult T) (res : ListResult)
    (hdec : ∀ o ∈ res.contents, ∀ sk, o.key = some sk →
      (S3Store.decodeScanKey cfg sk).isSome = true) :
    (S3Store.scanAfterList cfg getResult res).isSuccessCb = true ∧
    ∀ k v, ((k, v) ∈ scanEntriesOf (S3Store.scanAfterList cfg getResult res) ↔
      ∃ o ∈ res.contents, ∃ sk, o.key = some sk ∧
        S3Store.decodeScanKey cfg sk = some k ∧ getResult k = CbResult.success v) := by
  obtain ⟨entries, hco, hiff⟩ := scanCollect_eq cfg getResult res.contents hdec
  by_cases hz : res.contents.length = 0
  · have hobj : res.contents = [] := List.eq_nil_of_length_eq_zero hz
    constructor
    · simp [S3Store.scanAfterList, hz, CbResult.isSuccessCb]
    · intro k v
      simp [S3Store.scanAfterList, hz, scanEntriesOf, hobj]
  · have hentries : scanEntriesOf (S3Store.scanAfterList cfg getResult res) = entries := by
      simp [S3Store.scanAfterList, hz, hco, scanEntriesOf]
    constructor
    · simp [S3Store.scanAfterList, hz, hco, CbResult.isSuccessCb]
    · intro k v
      rw [hentries]
      exact hiff k v

/-- Claim C9 witness: a page with a hit, a miss and a keyless entry
still scans successfully. -/
theorem scan_omits_failed_lookups_witness :
    (S3Store.scanAfterList (Config.mk "bucket" "us-east-1" "" 60 none none)
        (fun k => if k = "a" then CbResult.success 1 else CbResult.miss)
        (ListResult.mk [ScanObj.mk (some "a"), ScanObj.mk (some "b"), ScanObj.mk none]
          false none)).isSuccessCb = true :=
  (scan_omits_failed_lookups (Config.mk "bucket" "us-east-1" "" 60 none none)
    (fun k => if k = "a" then CbResult.success 1 else CbResult.miss)
    (ListResult.mk [ScanObj.mk (some "a"), ScanObj.mk (some "b"), ScanObj.mk none] false none)
    (by
      intro o ho sk hsk
      simp only [List.mem_cons, List.not_mem_nil, or_false] at ho
      rcases ho with rfl | rfl | rfl
      · have h2 : some "a" = some sk := hsk
        injection h2 with h3
        subst h3
        decide
      · have h2 : some "b" = some sk := hsk
        injection h2 with h3
        subst h3
        decide
      · exact Option.noConfusion hsk)).1

/-! ## Key-codec lemmas -/

/-- Percent encoding distributes over append. -/
theorem encodeURIComponentL_append (a b : List Char) :
    encodeURIComponentL (a ++ b) = encodeURIComponentL a ++ encodeURIComponentL b := by
  induction a with
  | nil => rfl
  | cons c cs ih => simp [encodeURIComponentL, ih]

/-- The placeholder consists of unreserved characters, so
encodeURIComponent leaves it untouched (the fact the source relies on
when it builds the restore regex). -/
theorem encode_placeholder : encodeURIComponentL SLASH_PLACEHOLDER = SLASH_PLACEHOLDER := rfl

/-- Valid scalar-value ranges of a character. -/
theorem char_valid_ranges (c : Char) :
    c.toNat < 55296 ∨ (57343 < c.toNat ∧ c.toNat < 1114112) := c.valid

/-- hexVal inverts hexDigit on nibbles. -/
theorem hexVal_hexDigit (m : Nat) (h : m < 16) : hexVal (hexDigit m) = some m := by
  interval_cases m <;> rfl

/-- Hex digit characters are neither underscore nor slash. -/
theorem hexDigit_ne (m : Nat) (h : m < 16) : hexDigit m ≠ '_' ∧ hexDigit m ≠ '/' := by
  interval_cases m <;> exact ⟨by decide, by decide⟩

/-- UTF-8 bytes are bytes. -/
theorem utf8Bytes_lt (c : Char) : ∀ b ∈ utf8Bytes c, b < 256 := by
  have hv : c.toNat < 1114112 := by
    rcases char_valid_ranges c with hv | hv
    · omega
    · omega
  intro b hb
  by_cases h1 : c.toNat < 128
  · simp only [utf8Bytes, if_pos h1, List.mem_singleton] at hb
    omega
  · by_cases h2 : c.toNat < 2048
    · simp only [utf8Bytes, if_neg h1, if_pos h2, List.mem_cons, List.not_mem_nil,
        or_false] at hb
      rcases hb with rfl | rfl <;> omega
    · by_cases h3 : c.toNat < 65536
      · simp only [utf8Bytes, if_neg h1, if_neg h2, if_pos h3, List.mem_cons,
          List.not_mem_nil, or_false] at hb
        rcases hb with rfl | rfl | rfl <;> omega
      · simp only [utf8Bytes, if_neg h1, if_neg h2, if_neg h3, List.mem_cons,
          List.not_mem_nil, or_false] at hb
        rcases hb with rfl | rfl | rfl | rfl <;> omega

/-- Characters of a percent escape are neither underscore nor slash. -/
theorem pctEscape_chars (b : Nat) (hb : b < 256) :
    ∀ ch ∈ pctEscape b, ch ≠ '_' ∧ ch ≠ '/' := by
  intro ch hch
  simp only [pctEscape, List.mem_cons, List.not_mem_nil, or_false] at hch
  rcases hch with rfl | rfl | rfl
  · exact ⟨by decide, by decide⟩
  · exact hexDigit_ne (b / 16) (Nat.div_lt_of_lt_mul (by omega))
  · exact hexDigit_ne (b % 16) (Nat.mod_lt b (by omega))

/-- Characters of a percent-escaped byte run are neither underscore
nor slash. -/
theorem pctEncodeBytes_chars (bs : List Nat) (h : ∀ b ∈ bs, b < 256) :
    ∀ ch ∈ pctEncodeBytes bs, ch ≠ '_' ∧ ch ≠ '/' := by
  induction bs with
  | nil =>
    intro ch hch
    simp [pctEncodeBytes] at hch
  | cons b rest ih =>
    intro ch hch
    simp only [pctEncodeBytes, List.mem_append] at hch
    rcases hch with hch | hch
    · exact pctEscape_chars b (h b (List.mem_cons_self b rest)) ch hch
    · exact ih (fun x hx => h x (List.mem_cons_of_mem b hx)) ch hch

/-- UTF-8 encodings are non-empty. -/
theorem utf8Bytes_cons (c : Char) : ∃ b bs, utf8Bytes c = b :: bs := by
  by_cases h1 : c.toNat < 128
  · exact ⟨c.toNat, [], by simp [utf8Bytes, h1]⟩
  · by_cases h2 : c.toNat < 2048
    · exact ⟨192 + c.toNat / 64, [128 + c.toNat % 64], by simp [utf8Bytes, h1, h2]⟩
    · by_cases h3 : c.toNat < 65536
      · exact ⟨224 + c.toNat / 4096, [128 + c.toNat / 64 % 64, 128 + c.toNat % 64],
          by simp [utf8Bytes, h1, h2, h3]⟩
      · exact ⟨240 + c.toNat / 262144,
          [128 + c.toNat / 4096 % 64, 128 + c.toNat / 64 % 64, 128 + c.toNat % 64],
          by simp [utf8Bytes, h1, h2, h3]⟩

/-- The escape form of a non-unreserved character starts with a
percent sign and contains neither underscore nor slash. -/
theorem encodeChar_escape (c : Char) (h : isUnreservedURI c = false) :
    (∃ t, encodeChar c = '%' :: t) ∧ ∀ ch ∈ encodeChar c, ch ≠ '_' ∧ ch ≠ '/' := by
  obtain ⟨b, bs, hbs⟩ := utf8Bytes_cons c
  constructor
  · refine ⟨hexDigit (b / 16) :: hexDigit (b % 16) :: pctEncodeBytes bs, ?_⟩
    simp [encodeChar, h, hbs, pctEncodeBytes, pctEscape]
  · intro ch hch
    simp only [encodeChar, h, Bool.false_eq_true, if_false] at hch
    exact pctEncodeBytes_chars (utf8Bytes c) (utf8Bytes_lt c) ch hch

/-- A list is a prefix of itself extended. -/
theorem startsWithL_append_self (p x : List Char) : startsWithL p (p ++ x) = true := by
  induction p with
  | nil => rfl
  | cons q qs ih => simp [startsWithL, ih]

/-- The fuel of the replacement worker is irrelevant above the input
length. -/
theorem replaceAllLAux_fuel_irrel (pat rep : List Char) :
    ∀ f1 f2 s, s.length ≤ f1 → s.length ≤ f2 →
      replaceAllLAux pat rep f1 s = replaceAllLAux pat rep f2 s := by
  intro f1
  induction f1 with
  | zero =>
    intro f2 s h1 _
    have hs : s = [] := List.eq_nil_of_length_eq_zero (Nat.le_zero.mp h1)
    subst hs
    cases f2 <;> rfl
  | succ g ih =>
    intro f2 s h1 h2
    cases s with
    | nil => cases f2 <;> rfl
    | cons c cs =>
      cases f2 with
      | zero => simp at h2
      | succ g2 =>
        simp only [replaceAllLAux]
        by_cases hc : pat ≠ [] ∧ startsWithL pat (c :: cs) = true
        · rw [if_pos hc, if_pos hc]
          have hp : 0 < pat.length := List.length_pos.mpr hc.1
          have hd : (List.drop pat.length (c :: cs)).length ≤ g := by
            simp only [List.length_drop, List.length_cons]
            simp only [List.length_cons] at h1
            omega
          have hd2 : (List.drop pat.length (c :: cs)).length ≤ g2 := by
            simp only [List.length_drop, List.length_cons]
            simp only [List.length_cons] at h2
            omega
          rw [ih g2 _ hd hd2]
        · rw [if_neg hc, if_neg hc]
          have hl1 : cs.length ≤ g := by
            simp only [List.length_cons] at h1
            omega
          have hl2 : cs.length ≤ g2 := by
            simp only [List.length_cons] at h2
            omega
          rw [ih g2 cs hl1 hl2]

/-- The replacement consumes a leading match. -/
theorem replaceAllL_match (pat rep s : List Char) (hp : pat ≠ [])
    (hs : startsWithL pat s = true) :
    replaceAllL pat rep s = rep ++ replaceAllL pat rep (List.drop pat.length s) := by
  cases s with
  | nil =>
    cases pat with
    | nil => exact absurd rfl hp
    | cons q qs => simp [startsWithL] at hs
  | cons c cs =>
    simp only [replaceAllL, List.length_cons, replaceAllLAux, if_pos (And.intro hp hs)]
    congr 1
    apply replaceAllLAux_fuel_irrel
    · simp only [List.length_drop, List.length_cons]
      have := List.length_pos.mpr hp
      omega
    · exact le_rfl

/-- The replacement passes a non-matching position through. -/
theorem replaceAllL_nomatch (pat rep : List Char) (c : Char) (cs : List Char)
    (h : ¬(pat ≠ [] ∧ startsWithL pat (c :: cs) = true)) :
    replaceAllL pat rep (c :: cs) = c :: replaceAllL pat rep cs := by
  simp only [replaceAllL, List.length_cons, replaceAllLAux, if_neg h]

/-- Removing a leading literal prefix. -/
theorem stripFirstL_append (p b : List Char) : stripFirstL p (p ++ b) = b := by
  cases p with
  | nil =>
    cases b with
    | nil => rfl
    | cons c cs => simp [stripFirstL, startsWithL]
  | cons q qs =>
    have hs := startsWithL_append_self (q :: qs) b
    have hd : List.drop (q :: qs).length ((q :: qs) ++ b) = b := List.drop_left (q :: qs) b
    simp only [List.cons_append] at hs hd ⊢
    simp only [stripFirstL, hs, if_true]
    exact hd

/-- Data of a string concatenation. -/
theorem string_data_append : ∀ (a b : String), (a ++ b).data = a.data ++ b.data
  | ⟨_⟩, ⟨_⟩ => rfl

/-- Rebuilding a string from its data. -/
theorem string_mk_data : ∀ (s : String), String.mk s.data = s
  | ⟨_⟩ => rfl

/-- Slash counting distributes over append. -/
theorem countSlash_append (a b : List Char) :
    countSlash (a ++ b) = countSlash a + countSlash b := by
  induction a with
  | nil => simp [countSlash]
  | cons c cs ih => simp [countSlash, ih, Nat.add_assoc]

/-- Slash-free lists count zero. -/
theorem countSlash_eq_zero (l : List Char) (h : ∀ ch ∈ l, ch ≠ '/') : countSlash l = 0 := by
  induction l with
  | nil => rfl
  | cons c cs ih =>
    have hc := h c (List.mem_cons_self c cs)
    simp [countSlash, hc, ih (fun x hx => h x (List.mem_cons_of_mem c hx))]

/-- The slash-aware encoding preserves the number of literal
separators. -/
theorem countSlash_encodeSlashAware (l : List Char) :
    countSlash (encodeSlashAware l) = countSlash l := by
  induction l with
  | nil => rfl
  | cons c cs ih =>
    by_cases hc : c = '/'
    · subst hc
      simp [encodeSlashAware, countSlash_append, countSlash, ih]
    · have htok : countSlash (encodeChar c) = 0 := by
        by_cases hu : isUnreservedURI c = true
        · simp [encodeChar, hu, countSlash, hc]
        · apply countSlash_eq_zero
          intro ch hch
          refine (pctEncodeBytes_chars (utf8Bytes c) (utf8Bytes_lt c) ch ?_).2
          simpa [encodeChar, hu] using hch
      simp [encodeSlashAware, hc, countSlash_append, htok, ih, countSlash]

/-- Characters of a slash-expanded list come from the placeholder or
from the original non-slash characters. -/
theorem mem_expandSlashes (l : List Char) (c : Char) (h : c ∈ expandSlashes l) :
    c ∈ SLASH_PLACEHOLDER ∨ (c ∈ l ∧ c ≠ '/') := by
  induction l with
  | nil => simp [expandSlashes] at h
  | cons a as ih =>
    simp only [expandSlashes, List.mem_append] at h
    rcases h with h | h
    · by_cases ha : a = '/'
      · rw [if_pos ha] at h
        exact Or.inl h
      · rw [if_neg ha] at h
        simp only [List.mem_singleton] at h
        subst h
        exact Or.inr ⟨List.mem_cons_self c as, ha⟩
    · rcases ih h with h2 | ⟨h2, h3⟩
      · exact Or.inl h2
      · exact Or.inr ⟨List.mem_cons_of_mem a h2, h3⟩

/-- The sanitizer is the identity on slash-expanded safe keys. -/
theorem sanitize_expand_id (k : List Char) (hsafe : ∀ c ∈ k, safeOrSlash c = true) :
    sanitize (expandSlashes k) = expandSlashes k := by
  apply List.filter_eq_self.mpr
  intro c hc
  rcases mem_expandSlashes k c hc with h | ⟨h, hne⟩
  · simp only [SLASH_PLACEHOLDER, List.mem_cons, List.not_mem_nil, or_false] at h
    rcases h with rfl | rfl | rfl | rfl | rfl | rfl | rfl | rfl | rfl <;> decide
  · have h2 := hsafe c h
    simp only [safeOrSlash, Bool.or_eq_true] at h2
    rcases h2 with h2 | h2
    · exact h2
    · exact absurd (by simpa using h2) hne

/-- pctByte inverts the escape of one byte. -/
theorem pctByte_escape (b : Nat) (hb : b < 256) (rest : List Char) :
    pctByte ('%' :: hexDigit (b / 16) :: hexDigit (b % 16) :: rest) = some (b, rest) := by
  simp only [pctByte, hexVal_hexDigit (b / 16) (by omega), hexVal_hexDigit (b % 16) (by omega),
    Nat.div_add_mod]

/-- Continuation reading consumes one escaped continuation byte. -/
theorem decodeUTF8Cont_escape (k acc b : Nat) (rest : List Char)
    (h1 : 128 ≤ b) (h2 : b < 192) :
    decodeUTF8Cont (k + 1) acc ('%' :: hexDigit (b / 16) :: hexDigit (b % 16) :: rest) =
      decodeUTF8Cont k (acc * 64 + (b - 128)) rest := by
  simp only [decodeUTF8Cont, pctByte_escape b (by omega) rest]
  rw [if_pos ⟨h1, h2⟩]

/-- Reading exactly one continuation escape. -/
theorem decodeUTF8Cont_one (acc b : Nat) (rest : List Char)
    (h1 : 128 ≤ b) (h2 : b < 192) :
    decodeUTF8Cont 1 acc ('%' :: hexDigit (b / 16) :: hexDigit (b % 16) :: rest) =
      some (acc * 64 + (b - 128), rest) :=
  decodeUTF8Cont_escape 0 acc b rest h1 h2

/-- Reading exactly two continuation escapes. -/
theorem decodeUTF8Cont_two (acc b1 b2 : Nat) (rest : List Char)
    (h1 : 128 ≤ b1) (h2 : b1 < 192) (h3 : 128 ≤ b2) (h4 : b2 < 192) :
    decodeUTF8Cont 2 acc ('%' :: hexDigit (b1 / 16) :: hexDigit (b1 % 16) ::
        '%' :: hexDigit (b2 / 16) :: hexDigit (b2 % 16) :: rest) =
      some ((acc * 64 + (b1 - 128)) * 64 + (b2 - 128), rest) :=
  (decodeUTF8Cont_escape 1 acc b1 _ h1 h2).trans (decodeUTF8Cont_one _ b2 rest h3 h4)

/-- Reading exactly three continuation escapes. -/
theorem decodeUTF8Cont_three (acc b1 b2 b3 : Nat) (rest : List Char)
    (h1 : 128 ≤ b1) (h2 : b1 < 192) (h3 : 128 ≤ b2) (h4 : b2 < 192)
    (h5 : 128 ≤ b3) (h6 : b3 < 192) :
    decodeUTF8Cont 3 acc ('%' :: hexDigit (b1 / 16) :: hexDigit (b1 % 16) ::
        '%' :: hexDigit (b2 / 16) :: hexDigit (b2 % 16) ::
        '%' :: hexDigit (b3 / 16) :: hexDigit (b3 % 16) :: rest) =
      some (((acc * 64 + (b1 - 128)) * 64 + (b2 - 128)) * 64 + (b3 - 128), rest) :=
  (decodeUTF8Cont_escape 2 acc b1 _ h1 h2).trans (decodeUTF8Cont_two _ b2 b3 rest h3 h4 h5 h6)

/-- The decode worker inverts the percent escape of one character's
UTF-8 bytes, whatever fuel remains for the tail. -/
theorem decodeAux_pct_char (g : Nat) (c : Char) (rest : List Char) :
    decodeURIComponentLAux (g + 1) (pctEncodeBytes (utf8Bytes c) ++ rest) =
      (decodeURIComponentLAux g rest).map (fun l => c :: l) := by
  have hv := char_valid_ranges c
  by_cases h1 : c.toNat < 128
  · have hb : utf8Bytes c = [c.toNat] := by simp [utf8Bytes, h1]
    rw [hb]
    show decodeURIComponentLAux (g + 1)
        ('%' :: hexDigit (c.toNat / 16) :: hexDigit (c.toNat % 16) :: rest) =
      (decodeURIComponentLAux g rest).map (fun l => c :: l)
    simp only [decodeURIComponentLAux, if_pos (rfl : ('%' : Char) = '%'),
      pctByte_escape c.toNat (by omega) rest, if_true]
    rw [if_pos h1, Char.ofNat_toNat]
  · by_cases h2 : c.toNat < 2048
    · have hb : utf8Bytes c = [192 + c.toNat / 64, 128 + c.toNat % 64] := by
        simp [utf8Bytes, h1, h2]
      rw [hb]
      show decodeURIComponentLAux (g + 1)
          ('%' :: hexDigit ((192 + c.toNat / 64) / 16) :: hexDigit ((192 + c.toNat / 64) % 16) ::
           '%' :: hexDigit ((128 + c.toNat % 64) / 16) :: hexDigit ((128 + c.toNat % 64) % 16) ::
           rest) =
        (decodeURIComponentLAux g rest).map (fun l => c :: l)
      simp only [decodeURIComponentLAux, if_pos (rfl : ('%' : Char) = '%'),
        pctByte_escape (192 + c.toNat / 64) (by omega), if_true]
      rw [if_neg (by omega : ¬(192 + c.toNat / 64 < 128))]
      rw [if_pos (by omega : 194 ≤ 192 + c.toNat / 64 ∧ 192 + c.toNat / 64 < 224)]
      rw [decodeUTF8Cont_one (192 + c.toNat / 64 - 192) (128 + c.toNat % 64) rest
        (by omega) (by omega)]
      dsimp only
      have heq : (192 + c.toNat / 64 - 192) * 64 + (128 + c.toNat % 64 - 128) = c.toNat := by
        omega
      rw [heq, Char.ofNat_toNat]
    · by_cases h3 : c.toNat < 65536
      · have hb : utf8Bytes c =
            [224 + c.toNat / 4096, 128 + c.toNat / 64 % 64, 128 + c.toNat % 64] := by
          simp [utf8Bytes, h1, h2, h3]
        rw [hb]
        show decodeURIComponentLAux (g + 1)
            ('%' :: hexDigit ((224 + c.toNat / 4096) / 16) ::
             hexDigit ((224 + c.toNat / 4096) % 16) ::
             '%' :: hexDigit ((128 + c.toNat / 64 % 64) / 16) ::
             hexDigit ((128 + c.toNat / 64 % 64) % 16) ::
             '%' :: hexDigit ((128 + c.toNat % 64) / 16) ::
             hexDigit ((128 + c.toNat % 64) % 16) :: rest) =
          (decodeURIComponentLAux g rest).map (fun l => c :: l)
        simp only [decodeURIComponentLAux, if_pos (rfl : ('%' : Char) = '%'),
          pctByte_escape (224 + c.toNat / 4096) (by omega), if_true]
        rw [if_neg (by omega : ¬(224 + c.toNat / 4096 < 128))]
        rw [if_neg (by omega : ¬(194 ≤ 224 + c.toNat / 4096 ∧ 224 + c.toNat / 4096 < 224))]
        rw [if_pos (by omega : 224 ≤ 224 + c.toNat / 4096 ∧ 224 + c.toNat / 4096 < 240)]
        rw [decodeUTF8Cont_two (224 + c.toNat / 4096 - 224) (128 + c.toNat / 64 % 64)
          (128 + c.toNat % 64) rest (by omega) (by omega) (by omega) (by omega)]
        dsimp only
        have heq : ((224 + c.toNat / 4096 - 224) * 64 + (128 + c.toNat / 64 % 64 - 128)) * 64 +
            (128 + c.toNat % 64 - 128) = c.toNat := by
          omega
        rw [heq]
        rw [if_pos (show 2048 ≤ c.toNat ∧ ¬(55296 ≤ c.toNat ∧ c.toNat < 57344) from
          ⟨by omega, by rcases hv with h | h <;> omega⟩)]
        rw [Char.ofNat_toNat]
      · have hup : c.toNat < 1114112 := by
          rcases hv with h | h <;> omega
        have hb : utf8Bytes c =
            [240 + c.toNat / 262144, 128 + c.toNat / 4096 % 64,
             128 + c.toNat / 64 % 64, 128 + c.toNat % 64] := by
          simp [utf8Bytes, h1, h2, h3]
        rw [hb]
        show decodeURIComponentLAux (g + 1)
            ('%' :: hexDigit ((240 + c.toNat / 262144) / 16) ::
             hexDigit ((240 + c.toNat / 262144) % 16) ::
             '%' :: hexDigit ((128 + c.toNat / 4096 % 64) / 16) ::
             hexDigit ((128 + c.toNat / 4096 % 64) % 16) ::
             '%' :: hexDigit ((128 + c.toNat / 64 % 64) / 16) ::
             hexDigit ((128 + c.toNat / 64 % 64) % 16) ::
             '%' :: hexDigit ((128 + c.toNat % 64) / 16) ::
             hexDigit ((128 + c.toNat % 64) % 16) :: rest) =
          (decodeURIComponentLAux g rest).map (fun l => c :: l)
        simp only [decodeURIComponentLAux, if_pos (rfl : ('%' : Char) = '%'),
          pctByte_escape (240 + c.toNat / 262144) (by omega), if_true]
        rw [if_neg (by omega : ¬(240 + c.toNat / 262144 < 128))]
        rw [if_neg (by omega :
          ¬(194 ≤ 240 + c.toNat / 262144 ∧ 240 + c.toNat / 262144 < 224))]
        rw [if_neg (by omega :
          ¬(224 ≤ 240 + c.toNat / 262144 ∧ 240 + c.toNat / 262144 < 240))]
        rw [if_pos (by omega : 240 ≤ 240 + c.toNat / 262144 ∧ 240 + c.toNat / 262144 < 248)]
        rw [decodeUTF8Cont_three (240 + c.toNat / 262144 - 240) (128 + c.toNat / 4096 % 64)
          (128 + c.toNat / 64 % 64) (128 + c.toNat % 64) rest
          (by omega) (by omega) (by omega) (by omega) (by omega) (by omega)]
        dsimp only
        have heq : (((240 + c.toNat / 262144 - 240) * 64 + (128 + c.toNat / 4096 % 64 - 128)) *
            64 + (128 + c.toNat / 64 % 64 - 128)) * 64 + (128 + c.toNat % 64 - 128) =
            c.toNat := by
          omega
        rw [heq]
        rw [if_pos (by omega : 65536 ≤ c.toNat ∧ c.toNat < 1114112)]
        rw [Char.ofNat_toNat]

/-- The decode worker inverts the slash-aware encoding whenever the
fuel covers the input. -/
theorem decodeAux_encodeSlashAware :
    ∀ (fuel : Nat) (l : List Char), (encodeSlashAware l).length ≤ fuel →
      decodeURIComponentLAux fuel (encodeSlashAware l) = some l := by
  intro fuel
  induction fuel with
  | zero =>
    intro l hlen
    cases l with
    | nil => rfl
    | cons c cs =>
      exfalso
      by_cases hc : c = '/'
      · subst hc
        simp [encodeSlashAware] at hlen
      · by_cases hu : isUnreservedURI c = true
        · simp [encodeSlashAware, encodeChar, hu, hc] at hlen
        · obtain ⟨b, bs, hbs⟩ := utf8Bytes_cons c
          simp [encodeSlashAware, encodeChar, hu, hc, hbs, pctEncodeBytes, pctEscape] at hlen
  | succ g ih =>
    intro l hlen
    cases l with
    | nil => rfl
    | cons c cs =>
      by_cases hc : c = '/'
      · subst hc
        show decodeURIComponentLAux (g + 1) ('/' :: encodeSlashAware cs) = _
        simp only [decodeURIComponentLAux]
        rw [if_neg (by decide : ¬('/' : Char) = '%')]
        rw [ih cs (by
          have hE : encodeSlashAware ('/' :: cs) = '/' :: encodeSlashAware cs := rfl
          rw [hE] at hlen
          simp only [List.length_cons] at hlen
          omega)]
        rfl
      · by_cases hu : isUnreservedURI c = true
        · have hcp : ¬c = '%' := by
            intro h
            subst h
            exact absurd hu (by decide)
          have hEnc : encodeSlashAware (c :: cs) = c :: encodeSlashAware cs := by
            simp [encodeSlashAware, encodeChar, hu, hc]
          rw [hEnc]
          rw [hEnc] at hlen
          simp only [decodeURIComponentLAux]
          rw [if_neg hcp]
          rw [ih cs (by simp only [List.length_cons] at hlen; omega)]
          rfl
        · have hEnc : encodeSlashAware (c :: cs) =
              pctEncodeBytes (utf8Bytes c) ++ encodeSlashAware cs := by
            simp [encodeSlashAware, encodeChar, hc, hu]
          rw [hEnc]
          rw [hEnc] at hlen
          have htok : 1 ≤ (pctEncodeBytes (utf8Bytes c)).length := by
            obtain ⟨b, bs, hbs⟩ := utf8Bytes_cons c
            rw [hbs]
            simp [pctEncodeBytes, pctEscape]
          rw [decodeAux_pct_char g c (encodeSlashAware cs)]
          rw [ih cs (by
            simp only [List.length_append] at hlen
            omega)]
          rfl

/-- Decoding inverts the slash-aware encoding (the decodeURIComponent
side of the round trip). -/
theorem decode_encodeSlashAware (l : List Char) :
    decodeURIComponentL (encodeSlashAware l) = some l :=
  decodeAux_encodeSlashAware (encodeSlashAware l).length l le_rfl

/-- Expansion-and-encoding step for a separator. -/
theorem encExpand_cons_slash (k : List Char) :
    encExpand ('/' :: k) = SLASH_PLACEHOLDER ++ encExpand k := by
  simp [encExpand, expandSlashes, encodeURIComponentL_append, encode_placeholder]

/-- Expansion-and-encoding step for a non-separator. -/
theorem encExpand_cons (c : Char) (k : List Char) (hc : ¬c = '/') :
    encExpand (c :: k) = encodeChar c ++ encExpand k := by
  simp [encExpand, expandSlashes, hc, encodeURIComponentL_append, encodeURIComponentL]

/-- Where the placeholder suffix of length one can start in an encoded
expansion. -/
theorem startsWith_encExpand_8 (k : List Char)
    (h : startsWithL ['_'] (encExpand k) = true) :
    startsWithL ['_'] k = true ∨ startsWithL ['/'] k = true := by
  cases k with
  | nil => simp [encExpand, expandSlashes, encodeURIComponentL, startsWithL] at h
  | cons c k2 =>
    by_cases hc : c = '/'
    · subst hc
      exact Or.inr (by simp [startsWithL])
    · rw [encExpand_cons c k2 hc] at h
      by_cases hu : isUnreservedURI c = true
      · rw [show encodeChar c = [c] from by simp [encodeChar, hu]] at h
        simp only [List.singleton_append, startsWithL, Bool.and_eq_true, beq_iff_eq] at h
        obtain ⟨hceq, _⟩ := h
        subst hceq
        exact Or.inl (by simp [startsWithL])
      · obtain ⟨⟨t, ht⟩, _⟩ := encodeChar_escape c (by simpa using hu)
        rw [ht] at h
        simp [startsWithL] at h

/-- Where the placeholder suffix of length two can start in an encoded
expansion. -/
theorem startsWith_encExpand_7 (k : List Char)
    (h : startsWithL ['_', '_'] (encExpand k) = true) :
    startsWithL ['_', '_'] k = true ∨ startsWithL ['_', '/'] k = true ∨
    startsWithL ['/'] k = true := by
  cases k with
  | nil => simp [encExpand, expandSlashes, encodeURIComponentL, startsWithL] at h
  | cons c k2 =>
    by_cases hc : c = '/'
    · subst hc
      exact Or.inr (Or.inr (by simp [startsWithL]))
    · rw [encExpand_cons c k2 hc] at h
      by_cases hu : isUnreservedURI c = true
      · rw [show encodeChar c = [c] from by simp [encodeChar, hu]] at h
        simp only [List.singleton_append, startsWithL, Bool.and_eq_true, beq_iff_eq] at h
        obtain ⟨hceq, h2⟩ := h
        subst hceq
        rcases startsWith_encExpand_8 k2 h2 with h3 | h3
        · exact Or.inl (by simp [startsWithL, h3])
        · exact Or.inr (Or.inl (by simp [startsWithL, h3]))
      · obtain ⟨⟨t, ht⟩, _⟩ := encodeChar_escape c (by simpa using hu)
        rw [ht] at h
        simp [startsWithL] at h

/-- Where the placeholder suffix H__ can start in an encoded
expansion. -/
theorem startsWith_encExpand_6 (k : List Char)
    (h : startsWithL ['H', '_', '_'] (encExpand k) = true) :
    startsWithL ['H', '_', '_'] k = true ∨ startsWithL ['H', '_', '/'] k = true ∨
    startsWithL ['H', '/'] k = true := by
  cases k with
  | nil => simp [encExpand, expandSlashes, encodeURIComponentL, startsWithL] at h
  | cons c k2 =>
    by_cases hc : c = '/'
    · subst hc
      rw [encExpand_cons_slash] at h
      simp [SLASH_PLACEHOLDER, startsWithL] at h
    · rw [encExpand_cons c k2 hc] at h
      by_cases hu : isUnreservedURI c = true
      · rw [show encodeChar c = [c] from by simp [encodeChar, hu]] at h
        simp only [List.singleton_append, startsWithL, Bool.and_eq_true, beq_iff_eq] at h
        obtain ⟨hceq, h2⟩ := h
        subst hceq
        rcases startsWith_encExpand_7 k2 h2 with h3 | h3 | h3
        · exact Or.inl (by simp [startsWithL, h3])
        · exact Or.inr (Or.inl (by simp [startsWithL, h3]))
        · exact Or.inr (Or.inr (by simp [startsWithL, h3]))
      · obtain ⟨⟨t, ht⟩, _⟩ := encodeChar_escape c (by simpa using hu)
        rw [ht] at h
        simp [startsWithL] at h

/-- Where the placeholder suffix SH__ can start in an encoded
expansion. -/
theorem startsWith_encExpand_5 (k : List Char)
    (h : startsWithL ['S', 'H', '_', '_'] (encExpand k) = true) :
    startsWithL ['S', 'H', '_', '_'] k = true ∨
    startsWithL ['S', 'H', '_', '/'] k = true ∨
    startsWithL ['S', 'H', '/'] k = true := by
  cases k with
  | nil => simp [encExpand, expandSlashes, encodeURIComponentL, startsWithL] at h
  | cons c k2 =>
    by_cases hc : c = '/'
    · subst hc
      rw [encExpand_cons_slash] at h
      simp [SLASH_PLACEHOLDER, startsWithL] at h
    · rw [encExpand_cons c k2 hc] at h
      by_cases hu : isUnreservedURI c = true
      · rw [show encodeChar c = [c] from by simp [encodeChar, hu]] at h
        simp only [List.singleton_append, startsWithL, Bool.and_eq_true, beq_iff_eq] at h
        obtain ⟨hceq, h2⟩ := h
        subst hceq
        rcases startsWith_encExpand_6 k2 h2 with h3 | h3 | h3
        · exact Or.inl (by simp [startsWithL, h3])
        · exact Or.inr (Or.inl (by simp [startsWithL, h3]))
        · exact Or.inr (Or.inr (by simp [startsWithL, h3]))
      · obtain ⟨⟨t, ht⟩, _⟩ := encodeChar_escape c (by simpa using hu)
        rw [ht] at h
        simp [startsWithL] at h

/-- Where the placeholder suffix ASH__ can start in an encoded
expansion. -/
theorem startsWith_encExpand_4 (k : List Char)
    (h : startsWithL ['A', 'S', 'H', '_', '_'] (encExpand k) = true) :
    startsWithL ['A', 'S', 'H', '_', '_'] k = true ∨
    startsWithL ['A', 'S', 'H', '_', '/'] k = true ∨
    startsWithL ['A', 'S', 'H', '/'] k = true := by
  cases k with
  | nil => simp [encExpand, expandSlashes, encodeURIComponentL, startsWithL] at h
  | cons c k2 =>
    by_cases hc : c = '/'
    · subst hc
      rw [encExpand_cons_slash] at h
      simp [SLASH_PLACEHOLDER, startsWithL] at h
    · rw [encExpand_cons c k2 hc] at h
      by_cases hu : isUnreservedURI c = true
      · rw [show encodeChar c = [c] from by simp [encodeChar, hu]] at h
        simp only [List.singleton_append, startsWithL, Bool.and_eq_true, beq_iff_eq] at h
        obtain ⟨hceq, h2⟩ := h
        subst hceq
        rcases startsWith_encExpand_5 k2 h2 with h3 | h3 | h3
        · exact Or.inl (by simp [startsWithL, h3])
        · exact Or.inr (Or.inl (by simp [startsWithL, h3]))
        · exact Or.inr (Or.inr (by simp [startsWithL, h3]))
      · obtain ⟨⟨t, ht⟩, _⟩ := encodeChar_escape c (by simpa using hu)
        rw [ht] at h
        simp [startsWithL] at h

/-- Where the placeholder suffix LASH__ can start in an encoded
expansion. -/
theorem startsWith_encExpand_3 (k : List Char)
    (h : startsWithL ['L', 'A', 'S', 'H', '_', '_'] (encExpand k) = true) :
    startsWithL ['L', 'A', 'S', 'H', '_', '_'] k = true ∨
    startsWithL ['L', 'A', 'S', 'H', '_', '/'] k = true ∨
    startsWithL ['L', 'A', 'S', 'H', '/'] k = true := by
  cases k with
  | nil => simp [encExpand, expandSlashes, encodeURIComponentL, startsWithL] at h
  | cons c k2 =>
    by_cases hc : c = '/'
    · subst hc
      rw [encExpand_cons_slash] at h
      simp [SLASH_PLACEHOLDER, startsWithL] at h
    · rw [encExpand_cons c k2 hc] at h
      by_cases hu : isUnreservedURI c = true
      · rw [show encodeChar c = [c] from by simp [encodeChar, hu]] at h
        simp only [List.singleton_append, startsWithL, Bool.and_eq_true, beq_iff_eq] at h
        obtain ⟨hceq, h2⟩ := h
        subst hceq
        rcases startsWith_encExpand_4 k2 h2 with h3 | h3 | h3
        · exact Or.inl (by simp [startsWithL, h3])
        · exact Or.inr (Or.inl (by simp [startsWithL, h3]))
        · exact Or.inr (Or.inr (by simp [startsWithL, h3]))
      · obtain ⟨⟨t, ht⟩, _⟩ := encodeChar_escape c (by simpa using hu)
        rw [ht] at h
        simp [startsWithL] at h

/-- Where the placeholder suffix SLASH__ can start in an encoded
expansion. -/
theorem startsWith_encExpand_2 (k : List Char)
    (h : startsWithL ['S', 'L', 'A', 'S', 'H', '_', '_'] (encExpand k) = true) :
    startsWithL ['S', 'L', 'A', 'S', 'H', '_', '_'] k = true ∨
    startsWithL ['S', 'L', 'A', 'S', 'H', '_', '/'] k = true ∨
    startsWithL ['S', 'L', 'A', 'S', 'H', '/'] k = true := by
  cases k with
  | nil => simp [encExpand, expandSlashes, encodeURIComponentL, startsWithL] at h
  | cons c k2 =>
    by_cases hc : c = '/'
    · subst hc
      rw [encExpand_cons_slash] at h
      simp [SLASH_PLACEHOLDER, startsWithL] at h
    · rw [encExpand_cons c k2 hc] at h
      by_cases hu : isUnreservedURI c = true
      · rw [show encodeChar c = [c] from by simp [encodeChar, hu]] at h
        simp only [List.singleton_append, startsWithL, Bool.and_eq_true, beq_iff_eq] at h
        obtain ⟨hceq, h2⟩ := h
        subst hceq
        rcases startsWith_encExpand_3 k2 h2 with h3 | h3 | h3
        · exact Or.inl (by simp [startsWithL, h3])
        · exact Or.inr (Or.inl (by simp [startsWithL, h3]))
        · exact Or.inr (Or.inr (by simp [startsWithL, h3]))
      · obtain ⟨⟨t, ht⟩, _⟩ := encodeChar_escape c (by simpa using hu)
        rw [ht] at h
        simp [startsWithL] at h

/-- Where the placeholder suffix _SLASH__ can start in an encoded
expansion. -/
theorem startsWith_encExpand_1 (k : List Char)
    (h : startsWithL ['_', 'S', 'L', 'A', 'S', 'H', '_', '_'] (encExpand k) = true) :
    startsWithL ['_', 'S', 'L', 'A', 'S', 'H', '_', '_'] k = true ∨
    startsWithL ['_', 'S', 'L', 'A', 'S', 'H', '_', '/'] k = true ∨
    startsWithL ['_', 'S', 'L', 'A', 'S', 'H', '/'] k = true := by
  cases k with
  | nil => simp [encExpand, expandSlashes, encodeURIComponentL, startsWithL] at h
  | cons c k2 =>
    by_cases hc : c = '/'
    · subst hc
      rw [encExpand_cons_slash] at h
      simp [SLASH_PLACEHOLDER, startsWithL] at h
    · rw [encExpand_cons c k2 hc] at h
      by_cases hu : isUnreservedURI c = true
      · rw [show encodeChar c = [c] from by simp [encodeChar, hu]] at h
        simp only [List.singleton_append, startsWithL, Bool.and_eq_true, beq_iff_eq] at h
        obtain ⟨hceq, h2⟩ := h
        subst hceq
        rcases startsWith_encExpand_2 k2 h2 with h3 | h3 | h3
        · exact Or.inl (by simp [startsWithL, h3])
        · exact Or.inr (Or.inl (by simp [startsWithL, h3]))
        · exact Or.inr (Or.inr (by simp [startsWithL, h3]))
      · obtain ⟨⟨t, ht⟩, _⟩ := encodeChar_escape c (by simpa using hu)
        rw [ht] at h
        simp [startsWithL] at h

/-- Walking over non-underscore characters never starts a placeholder
match. -/
theorem replaceAllL_skip (t E : List Char) (h : ∀ ch ∈ t, ch ≠ '_') :
    replaceAllL SLASH_PLACEHOLDER ['/'] (t ++ E) =
      t ++ replaceAllL SLASH_PLACEHOLDER ['/'] E := by
  induction t with
  | nil => rfl
  | cons ch t2 ih =>
    have hch := h ch (List.mem_cons_self ch t2)
    have hns : ¬(SLASH_PLACEHOLDER ≠ [] ∧
        startsWithL SLASH_PLACEHOLDER (ch :: (t2 ++ E)) = true) := by
      intro hcon
      have hsw := hcon.2
      simp only [SLASH_PLACEHOLDER, startsWithL, Bool.and_eq_true, beq_iff_eq] at hsw
      exact hch hsw.1.symm
    rw [List.cons_append, replaceAllL_nomatch _ _ _ _ hns,
      ih (fun x hx => h x (List.mem_cons_of_mem ch hx))]
    rfl

/-- The restore pass maps the encoded expansion back to the slash-aware
encoding, provided the key avoids the placeholder-colliding patterns. -/
theorem replaceAll_encExpand (k : List Char)
    (h1 : containsL SLASH_PLACEHOLDER k = false)
    (h2 : containsL badPat2 k = false)
    (h3 : containsL badPat3 k = false) :
    replaceAllL SLASH_PLACEHOLDER ['/'] (encExpand k) = encodeSlashAware k := by
  induction k with
  | nil => rfl
  | cons c k2 ih =>
    have hsplit1 : containsL SLASH_PLACEHOLDER k2 = false := by
      simp only [containsL, Bool.or_eq_false_iff] at h1
      exact h1.2
    have hsplit2 : containsL badPat2 k2 = false := by
      simp only [containsL, Bool.or_eq_false_iff] at h2
      exact h2.2
    have hsplit3 : containsL badPat3 k2 = false := by
      simp only [containsL, Bool.or_eq_false_iff] at h3
      exact h3.2
    by_cases hc : c = '/'
    · subst hc
      rw [encExpand_cons_slash]
      rw [replaceAllL_match SLASH_PLACEHOLDER ['/'] _ (by decide)
        (startsWithL_append_self SLASH_PLACEHOLDER (encExpand k2))]
      rw [show List.drop SLASH_PLACEHOLDER.length (SLASH_PLACEHOLDER ++ encExpand k2) =
        encExpand k2 from List.drop_left _ _]
      rw [ih hsplit1 hsplit2 hsplit3]
      rfl
    · by_cases hu : isUnreservedURI c = true
      · rw [encExpand_cons c k2 hc, show encodeChar c = [c] from by simp [encodeChar, hu]]
        have hns : ¬(SLASH_PLACEHOLDER ≠ [] ∧
            startsWithL SLASH_PLACEHOLDER (c :: encExpand k2) = true) := by
          intro hcon
          have hsw := hcon.2
          by_cases hund : c = '_'
          · subst hund
            have hs1 : startsWithL ['_', 'S', 'L', 'A', 'S', 'H', '_', '_']
                (encExpand k2) = true := by
              simpa [SLASH_PLACEHOLDER, startsWithL] using hsw
            rcases startsWith_encExpand_1 k2 hs1 with hb | hb | hb
            · have hcontra : containsL SLASH_PLACEHOLDER ('_' :: k2) = true := by
                simp [containsL, SLASH_PLACEHOLDER, startsWithL, hb]
              rw [hcontra] at h1
              exact Bool.noConfusion h1
            · have hcontra : containsL badPat3 ('_' :: k2) = true := by
                simp [containsL, badPat3, startsWithL, hb]
              rw [hcontra] at h3
              exact Bool.noConfusion h3
            · have hcontra : containsL badPat2 ('_' :: k2) = true := by
                simp [containsL, badPat2, startsWithL, hb]
              rw [hcontra] at h2
              exact Bool.noConfusion h2
          · simp only [SLASH_PLACEHOLDER, startsWithL, Bool.and_eq_true, beq_iff_eq] at hsw
            exact hund hsw.1.symm
        rw [show ([c] ++ encExpand k2 : List Char) = c :: encExpand k2 from rfl]
        rw [replaceAllL_nomatch _ _ _ _ hns]
        rw [ih hsplit1 hsplit2 hsplit3]
        simp [encodeSlashAware, encodeChar, hu, hc]
      · obtain ⟨hesc, hchars⟩ := encodeChar_escape c (by simpa using hu)
        rw [encExpand_cons c k2 hc]
        rw [replaceAllL_skip (encodeChar c) (encExpand k2)
          (fun ch hch => (hchars ch hch).1)]
        rw [ih hsplit1 hsplit2 hsplit3]
        simp [encodeSlashAware, hc]

/-- Claim C2 as amended: for every non-empty logical key composed of
sanitizer-safe characters and literal separators that contains neither
the placeholder __SLASH__ nor a separator directly preceded by __SLASH
or __SLASH_, encoding to a storage key and then decoding a scan-result
key restores the original key exactly, and the encoded form carries
the separators as literal slash characters. -/
theorem formatKey_scan_roundtrip (cfg : Config) (key : String)
    (hvalid : isValidCacheKey key = true)
    (hsafe : ∀ c ∈ key.data, safeOrSlash c = true)
    (h1 : containsL SLASH_PLACEHOLDER key.data = false)
    (h2 : containsL badPat2 key.data = false)
    (h3 : containsL badPat3 key.data = false) :
    S3Store.formatKey cfg key =
      Except.ok (cfg.keyPrefix ++ String.mk (encodeSlashAware key.data)) ∧
    S3Store.decodeScanKey cfg (cfg.keyPrefix ++ String.mk (encodeSlashAware key.data)) =
      some key ∧
    countSlash (encodeSlashAware key.data) = countSlash key.data := by
  have henc : replaceAllL (encodeURIComponentL SLASH_PLACEHOLDER) ['/']
      (encodeURIComponentL (sanitize (expandSlashes key.data))) =
        encodeSlashAware key.data := by
    rw [encode_placeholder, sanitize_expand_id key.data hsafe]
    exact replaceAll_encExpand key.data h1 h2 h3
  refine ⟨?_, ?_, countSlash_encodeSlashAware key.data⟩
  · simp only [S3Store.formatKey, hvalid, if_true]
    rw [henc]
  · simp only [S3Store.decodeScanKey, string_data_append]
    rw [stripFirstL_append, decode_encodeSlashAware]
    simp [string_mk_data]

/-- Claim C2 counterexample: the key a__SLASH_/b consists only of
sanitizer-safe characters and literal separators, yet encoding then
decoding yields a/_SLASH__b instead of the original key, because the
restore pass matches a placeholder occurrence straddling the key text
and the substituted separator. -/
theorem formatKey_scan_roundtrip_cex :
    isValidCacheKey "a__SLASH_/b" = true ∧
    List.all (String.data "a__SLASH_/b") safeOrSlash = true ∧
    S3Store.formatKey (Config.mk "bucket" "us-east-1" "" 60 none none) "a__SLASH_/b" =
      Except.ok "a/_SLASH__b" ∧
    S3Store.decodeScanKey (Config.mk "bucket" "us-east-1" "" 60 none none) "a/_SLASH__b" =
      some "a/_SLASH__b" ∧
    S3Store.decodeScanKey (Config.mk "bucket" "us-east-1" "" 60 none none) "a/_SLASH__b" ≠
      some "a__SLASH_/b" := by
  refine ⟨rfl, rfl, rfl, rfl, ?_⟩
  decide

/-- Claim C2 witness of the amended statement at the key a/b/c under a
configured prefix. -/
theorem formatKey_scan_roundtrip_witness :
    S3Store.formatKey (Config.mk "bucket" "us-east-1" "cache:" 60 none none) "a/b/c" =
      Except.ok ("cache:" ++ String.mk (encodeSlashAware ("a/b/c").data)) ∧
    S3Store.decodeScanKey (Config.mk "bucket" "us-east-1" "cache:" 60 none none)
        ("cache:" ++ String.mk (encodeSlashAware ("a/b/c").data)) = some "a/b/c" ∧
    countSlash (encodeSlashAware ("a/b/c").data) = countSlash ("a/b/c").data :=
  formatKey_scan_roundtrip (Config.mk "bucket" "us-east-1" "cache:" 60 none none) "a/b/c"
    rfl (by decide) rfl rfl rfl

end CachemanS3
